import Mathlib

/-!
# Verification of the cryptocurrency exchange dashboard pipeline

Shallow embedding of the real-time synchronization pipeline of the
`cryptocurrency-htfx-exchange-dash-rs` repository: the wire protocol data
model, the server-side broadcaster forwarding loop (`ws.rs`), the client
configuration wiring (`dash-app/src/main.rs`), the trade-flow and order-book
view computations (`dash-components`), and — modelled from the specification
where the crate is not part of the sources — the market state reducer and
the reconnect backoff policy.

Fixed-precision decimal prices and quantities are embedded as rationals.
-/

/-- Trade side, from `dash_core::TradeSide`. -/
inductive TradeSide where
  | buy
  | sell
deriving DecidableEq

/-- One executed trade, from `dash_core::Trade` (fields used by the
components: id, side, price, quantity, timestamp). -/
structure Trade where
  id : String
  side : TradeSide
  price : ℚ
  quantity : ℚ
  timestamp : ℕ
deriving DecidableEq

/-- One order-book rung, from `dash_core::OrderBookLevel` (the spec's
`PriceLevel`): price and quantity. -/
structure OrderBookLevel where
  price : ℚ
  quantity : ℚ
deriving DecidableEq

/-- Full depth for one symbol, from `dash_core::OrderBookSnapshot`:
bids (descending price) and asks (ascending price). -/
structure OrderBookSnapshot where
  bids : List OrderBookLevel
  asks : List OrderBookLevel
deriving DecidableEq

/-- Rolling 24h summary, from `dash_core::Ticker`. -/
structure Ticker where
  last : ℚ
  high : ℚ
  low : ℚ
  volume : ℚ
  change : ℚ
deriving DecidableEq

/-- Order-book side tag for deltas. -/
inductive Side where
  | bid
  | ask
deriving DecidableEq

/-- Wire message envelope, the spec's `WireMessage` (`dash_core::WsMessage`),
restricted to one symbol: `Snapshot`, `Delta`, `Trade`, `Ticker`,
`Heartbeat`. -/
inductive WsMessage where
  | snapshot (book : OrderBookSnapshot) (ticker : Ticker)
  | delta (side : Side) (price : ℚ) (quantity : ℚ)
  | trade (t : Trade)
  | ticker (t : Ticker)
  | heartbeat (serverTime : ℕ)
deriving DecidableEq

/-! ## Trade flow view (`dash-components/src/trade_history.rs`, TradeFlowSummary) -/

/-- The `flow_data` closure of `TradeFlowSummary`
(`trade_history.rs:182-204`): take the `window` most recent trades
(newest-first list), return `(buy_vol, sell_vol, buy_ratio)`; the ratio is
`buy_vol / total` when `total > 0` and `0.5` when the window is empty or the
total is not positive. -/
def flow_data (trades : List Trade) (window : ℕ) : ℚ × ℚ × ℚ :=
  let recent := trades.take window
  if recent.isEmpty then (0, 0, 1/2)
  else
    let vols := recent.foldl
      (fun (acc : ℚ × ℚ) t =>
        match t.side with
        | TradeSide.buy => (acc.1 + t.quantity, acc.2)
        | TradeSide.sell => (acc.1, acc.2 + t.quantity)) (0, 0)
    let total := vols.1 + vols.2
    let r := if 0 < total then vols.1 / total else 1/2
    (vols.1, vols.2, r)

/-- Sum of the quantities of the trades of a given side in a list. -/
def sideVolume (s : TradeSide) (trades : List Trade) : ℚ :=
  ((trades.filter (fun t => t.side = s)).map Trade.quantity).sum

/-! ## Order book depth bars (`dash-components/src/order.rs`) -/

/-- `Modelled from the spec:` `dash_core::OrderBookSnapshot::max_quantity`
is not under `src/`; the spec describes it as the "max quantity across
visible depth (for visualization scaling)": the maximum level quantity over
both sides, `0` for an empty book. -/
def OrderBookSnapshot.max_quantity (b : OrderBookSnapshot) : ℚ :=
  ((b.bids ++ b.asks).map OrderBookLevel.quantity).foldl max 0

/-- The `max_qty` closure of the `OrderBook` component (`order.rs:67-69`):
`orderbook.get().map_or(1.0, |book| book.max_quantity().max(0.001))`. -/
def max_qty (orderbook : Option OrderBookSnapshot) : ℚ :=
  match orderbook with
  | none => 1
  | some book => max book.max_quantity (1/1000)

/-- The bar percentage of `OrderBookRow` (`order.rs:204-206`):
`(qty / max_qty * 100.0).min(100.0)`. -/
def bar_pct (qty maxQty : ℚ) : ℚ :=
  min (qty / maxQty * 100) 100

/-! ## Client connection wiring (`dash-app/src/main.rs`) -/

/-- `Modelled from the spec:` `dash_websocket::ExponentialBackoff` is not
under `src/`; per the spec's configuration surface it carries the backoff
base delay, growth factor, maximum delay and jitter flag. -/
structure ExponentialBackoff where
  base : ℚ
  factor : ℚ
  maxDelay : ℚ
  jitter : Bool
deriving DecidableEq

/-- `Modelled from the spec:` `dash_websocket::WsConfig` is not under
`src/`; from its call sites in `App` it carries a `url` and accepts a
backoff policy and a heartbeat interval (milliseconds). -/
structure WsConfig where
  url : String
  policy : ExponentialBackoff
  heartbeatMs : ℕ
deriving DecidableEq

/-- `Modelled from the spec:` default policy of a fresh `WsConfig`; the
concrete defaults are not under `src/` (base in the hundreds of
milliseconds per the spec) and no claim depends on their values. -/
def defaultPolicy : ExponentialBackoff :=
  { base := 500, factor := 2, maxDelay := 30000, jitter := true }

/-- `Modelled from the spec:` `WsConfig::new(url)` builds a configuration
for `url` with default policy and heartbeat. -/
def WsConfig.new (url : String) : WsConfig :=
  { url := url, policy := defaultPolicy, heartbeatMs := 30000 }

/-- `WsConfig::with_policy`: replace the backoff policy. -/
def WsConfig.with_policy (cfg : WsConfig) (p : ExponentialBackoff) : WsConfig :=
  { cfg with policy := p }

/-- `WsConfig::heartbeat`: replace the heartbeat interval. -/
def WsConfig.heartbeat (cfg : WsConfig) (ms : ℕ) : WsConfig :=
  { cfg with heartbeatMs := ms }

/-- The `ws_config` built in `App` (`dash-app/src/main.rs:17-19`):
`WsConfig::new(get_ws_url()).with_policy(policy).heartbeat(30000)`,
parameterized by the url and the chosen policy. -/
def appWsConfig (url : String) (p : ExponentialBackoff) : WsConfig :=
  ((WsConfig.new url).with_policy p).heartbeat 30000

/-- The data `App` actually passes to `use_websocket`
(`dash-app/src/main.rs:22`): `Some(ws_config.url.clone())` — only the url
field of the configuration crosses the call. -/
def appUseWebsocketArg (cfg : WsConfig) : Option String :=
  some cfg.url

/-- `Modelled from the spec:` `dash_websocket::DEFAULT_WS_URL` is not under
`src/`; the default development server url (its concrete value is not
specified and no claim depends on it). -/
def DEFAULT_WS_URL : String := "ws://127.0.0.1:3001/ws"

/-- A browser window location as read by `get_ws_url`: `host()` and
`protocol()` each yield a value or an error (embedded as `Option`). -/
structure WindowLocation where
  host : Option String
  protocol : Option String
deriving DecidableEq

/-- `get_ws_url` (`dash-app/src/main.rs:39-54`): when a window location with
a readable host exists, build `{ws|wss}://host/ws` choosing `wss` exactly
when the protocol reads as `"https:"`; otherwise fall back to
`DEFAULT_WS_URL`. -/
def get_ws_url (window : Option WindowLocation) : String :=
  match window with
  | some loc =>
    match loc.host with
    | some h =>
      let proto := if loc.protocol = some "https:" then "wss" else "ws"
      proto ++ "://" ++ h ++ "/ws"
    | none => DEFAULT_WS_URL
  | none => DEFAULT_WS_URL

/-! ## Server router (`dash-server/src/main.rs`) -/

/-- Route handlers mounted by the server's router. -/
inductive RouteHandler where
  | wsHandler
  | health
  | staticFiles
deriving DecidableEq

/-- The server's route table (`dash-server/src/main.rs:59-65`):
`/ws` upgrades to the WebSocket handler, `/health` answers the health
check; everything else falls back to static files. -/
def routes : List (String × RouteHandler) :=
  [("/ws", RouteHandler.wsHandler), ("/health", RouteHandler.health)]

/-- The broadcast channel capacity chosen by `AppState::new`
(`dash-server/src/main.rs:35`): `broadcast::channel(1024)`. -/
def appChannelCapacity : ℕ := 1024

/-! ## Broadcaster forwarding loop (`dash-server/src/ws.rs`, `handle_socket`)

The channel is a tokio `broadcast` channel of capacity `cap`: it keeps the
newest `cap` published messages; a receiver whose backlog exceeds `cap`
gets a `Lagged` error once, is repositioned at the oldest retained message,
and can keep receiving from there.  The per-subscriber send task of
`handle_socket` (`ws.rs:36-49`) is `while let Ok(msg) = rx.recv().await`
around a socket send, so the loop body runs only on `Ok` and the loop
exits on any error. -/

/-- An event of one subscriber's trace: the producer publishes a message,
or the subscriber's send task performs one `rx.recv()` (triggered only
when a message is available, so an empty-channel recv is a no-op wait). -/
inductive BEvent (α : Type) where
  | publish (m : α)
  | recvEvent
deriving DecidableEq

/-- State of one subscriber's send task against the channel: all messages
published so far, the receiver's next-read index `rpos`, whether the
`while let Ok` loop is still running, and the messages forwarded to the
socket so far. -/
structure SendTaskState (α : Type) where
  published : List α
  rpos : ℕ
  alive : Bool
  delivered : List α
deriving DecidableEq

/-- Initial state: nothing published, receiver at the head, loop running. -/
def initSendTask {α : Type} : SendTaskState α :=
  { published := [], rpos := 0, alive := true, delivered := [] }

/-- One step of the subscriber trace. On `publish`, the channel appends the
message.  On `recvEvent` with the loop alive and a message available:
if the backlog exceeds `cap`, `rx.recv()` returns `Err(Lagged)` — the
channel drops this receiver to the oldest retained message
(`rpos := published.length - cap`) and the `while let Ok` loop of
`handle_socket` terminates (`alive := false`); otherwise the message is
received and forwarded. -/
def sendTaskStep {α : Type} (cap : ℕ) (s : SendTaskState α) :
    BEvent α → SendTaskState α
  | BEvent.publish m => { s with published := s.published ++ [m] }
  | BEvent.recvEvent =>
    if s.alive = false then s
    else if h : s.rpos < s.published.length then
      if cap < s.published.length - s.rpos then
        { s with rpos := s.published.length - cap, alive := false }
      else
        { s with rpos := s.rpos + 1,
                 delivered := s.delivered ++ [s.published.get ⟨s.rpos, h⟩] }
    else s

/-- Run a subscriber trace from a state. -/
def runEvents {α : Type} (cap : ℕ) (s : SendTaskState α)
    (evs : List (BEvent α)) : SendTaskState α :=
  evs.foldl (sendTaskStep cap) s

/-! ## Server receive loop (`dash-server/src/ws.rs`, `recv_task` and
`handle_client_message`) -/

/-- A client-to-server advisory message, `ClientMessage` in
`handle_client_message` (`ws.rs:88-97`). -/
inductive ClientMessage where
  | subscribe (symbol : String)
  | unsubscribe (symbol : String)
  | ping
deriving DecidableEq

/-- Outcome of `serde_json::from_str::<ClientMessage>`: a parsed message or
an error.  The JSON parser itself is external; the loop is proved for
every possible parse outcome. -/
inductive ParseOutcome where
  | ok (m : ClientMessage)
  | err
deriving DecidableEq

/-- A diagnostic emitted by the handler. -/
inductive LogAction where
  | info (s : String)
  | trace (s : String)
deriving DecidableEq

/-- `handle_client_message` (`ws.rs:86-114`): parse the text; each advisory
variant is logged and handled, an unparseable message is ignored with a
trace diagnostic; every branch returns normally. -/
def handle_client_message (parse : String → ParseOutcome) (text : String) :
    LogAction :=
  match parse text with
  | ParseOutcome.ok (ClientMessage.subscribe s) =>
    LogAction.info ("Client subscribed to " ++ s)
  | ParseOutcome.ok (ClientMessage.unsubscribe s) =>
    LogAction.info ("Client unsubscribed from " ++ s)
  | ParseOutcome.ok ClientMessage.ping => LogAction.trace "Client ping"
  | ParseOutcome.err => LogAction.trace ("Unknown client message: " ++ text)

/-- An incoming WebSocket frame as matched by `recv_task` (`ws.rs:53-68`). -/
inductive Frame where
  | text (s : String)
  | ping (payload : List ℕ)
  | close
  | binary (payload : List ℕ)
deriving DecidableEq

/-- Loop control after one frame. -/
inductive LoopCtl where
  | cont
  | brk
deriving DecidableEq

/-- One iteration of `recv_task` (`ws.rs:53-68`): a text frame is passed to
`handle_client_message` and the loop continues; a ping continues; `Close`
breaks; any other frame is ignored and the loop continues. -/
def recvTaskStep (parse : String → ParseOutcome) :
    Frame → LoopCtl × Option LogAction
  | Frame.text s => (LoopCtl.cont, some (handle_client_message parse s))
  | Frame.ping _ => (LoopCtl.cont, none)
  | Frame.close => (LoopCtl.brk, none)
  | Frame.binary _ => (LoopCtl.cont, none)

/-- Number of frames of a list the receive loop processes before exiting:
it stops after the first `Close`, and otherwise consumes the stream. -/
def recvLoopProcessed (parse : String → ParseOutcome) : List Frame → ℕ
  | [] => 0
  | f :: fs =>
    match (recvTaskStep parse f).1 with
    | LoopCtl.brk => 1
    | LoopCtl.cont => 1 + recvLoopProcessed parse fs

/-! ## Market State Store (client reducer)

`Modelled from the spec:` the reducer lives in the `dash_state` crate, which
is not under `src/`.  The model below follows §4.4 of the spec for one
symbol: `Snapshot` replaces book and ticker wholesale; `Delta` removes the
level at the given price when quantity is 0 (no-op if absent) and otherwise
upserts preserving sort order (bids descending, asks ascending); `Trade`
prepends to the rolling buffer truncated to capacity `C`; `Ticker` replaces
wholesale; `Heartbeat` mutates nothing; a `Delta` with no prior `Snapshot`
is dropped. -/

/-- Client-resident aggregate for one symbol (the spec's `MarketModel`). -/
structure MarketModel where
  book : Option OrderBookSnapshot
  ticker : Option Ticker
  trades : List Trade
deriving DecidableEq

/-- Initial model: no snapshot seen yet. -/
def initialModel : MarketModel :=
  { book := none, ticker := none, trades := [] }

/-- Remove the level with exactly this price (no-op when absent). -/
def removeLevel (p : ℚ) (ls : List OrderBookLevel) : List OrderBookLevel :=
  ls.filter (fun l => l.price ≠ p)

/-- Ordered upsert into a strictly descending (by price) side: replace in
place on an exact price match, otherwise insert before the first smaller
price. -/
def insertDesc (lv : OrderBookLevel) : List OrderBookLevel → List OrderBookLevel
  | [] => [lv]
  | l :: ls =>
    if l.price < lv.price then lv :: l :: ls
    else if lv.price = l.price then lv :: ls
    else l :: insertDesc lv ls

/-- Ordered upsert into a strictly ascending (by price) side. -/
def insertAsc (lv : OrderBookLevel) : List OrderBookLevel → List OrderBookLevel
  | [] => [lv]
  | l :: ls =>
    if lv.price < l.price then lv :: l :: ls
    else if lv.price = l.price then lv :: ls
    else l :: insertAsc lv ls

/-- Apply one `Delta` to a book per §4.4. -/
def applyDelta (side : Side) (price quantity : ℚ) (b : OrderBookSnapshot) :
    OrderBookSnapshot :=
  match side with
  | Side.bid =>
    { b with bids :=
        if quantity = 0 then removeLevel price b.bids
        else insertDesc ⟨price, quantity⟩ b.bids }
  | Side.ask =>
    { b with asks :=
        if quantity = 0 then removeLevel price b.asks
        else insertAsc ⟨price, quantity⟩ b.asks }

/-- The reducer: fold one wire message into the model (`C` is the trade
buffer capacity). -/
def applyMessage (C : ℕ) (m : MarketModel) : WsMessage → MarketModel
  | WsMessage.snapshot bk tk => { m with book := some bk, ticker := some tk }
  | WsMessage.delta side p q =>
    match m.book with
    | none => m
    | some b => { m with book := some (applyDelta side p q b) }
  | WsMessage.trade t => { m with trades := (t :: m.trades).take C }
  | WsMessage.ticker t => { m with ticker := some t }
  | WsMessage.heartbeat _ => m

/-- Fold a whole message sequence into the model. -/
def applyAll (C : ℕ) (m : MarketModel) (msgs : List WsMessage) : MarketModel :=
  msgs.foldl (applyMessage C) m

/-- A side is strictly descending in price (this also forces unique
prices). -/
def StrictDesc (ls : List OrderBookLevel) : Prop :=
  ls.Pairwise (fun a b => b.price < a.price)

/-- A side is strictly ascending in price. -/
def StrictAsc (ls : List OrderBookLevel) : Prop :=
  ls.Pairwise (fun a b => a.price < b.price)

/-- Both sides of a book are strictly sorted with unique prices. -/
def SidesSorted (b : OrderBookSnapshot) : Prop :=
  StrictDesc b.bids ∧ StrictAsc b.asks

/-- Best (highest) bid price: head of the descending bid side. -/
def bestBid (b : OrderBookSnapshot) : Option ℚ :=
  b.bids.head?.map OrderBookLevel.price

/-- Best (lowest) ask price: head of the ascending ask side. -/
def bestAsk (b : OrderBookSnapshot) : Option ℚ :=
  b.asks.head?.map OrderBookLevel.price

/-- The book is not crossed: best bid < best ask whenever both exist. -/
def Uncrossed (b : OrderBookSnapshot) : Prop :=
  match b.bids.head?, b.asks.head? with
  | some lb, some la => lb.price < la.price
  | _, _ => True

/-- The full order-book invariant claimed for reachable states: strictly
sorted unique sides and an uncrossed book. -/
def BookInvariant (b : OrderBookSnapshot) : Prop :=
  SidesSorted b ∧ Uncrossed b

/-- A message sequence whose snapshots all carry well-formed payloads
(sorted unique sides — the data-model invariant of `OrderBookSnapshot`). -/
def SnapshotsSorted (msgs : List WsMessage) : Prop :=
  ∀ bk tk, WsMessage.snapshot bk tk ∈ msgs → SidesSorted bk

/-- A message sequence whose snapshots moreover carry uncrossed books. -/
def SnapshotsInvariant (msgs : List WsMessage) : Prop :=
  ∀ bk tk, WsMessage.snapshot bk tk ∈ msgs → BookInvariant bk

/-! ## Reconnecting transport backoff

`Modelled from the spec:` `dash_websocket::ExponentialBackoff`'s behavior is
not under `src/`.  Per §4.2: the delay starts at the configured base,
multiplies by the growth factor on each consecutive failure, is capped at
the configured maximum, and the failure counter resets upon reaching
`Connected`, so the next delay is the base again.  Jitter is a separate
randomization applied afterwards; delays here are pre-jitter. -/

/-- Backoff engine state: the pre-jitter delay the next reconnect attempt
would wait. -/
structure BackoffState where
  currentDelay : ℚ
deriving DecidableEq

/-- Fresh backoff state for a policy: the base delay. -/
def backoffInit (p : ExponentialBackoff) : BackoffState :=
  { currentDelay := p.base }

/-- After a consecutive failure the delay multiplies by the growth factor,
capped at the maximum. -/
def backoffOnFailure (p : ExponentialBackoff) (s : BackoffState) : BackoffState :=
  { currentDelay := min (s.currentDelay * p.factor) p.maxDelay }

/-- Reaching `Connected` resets the failure counter: the next delay is the
base again. -/
def backoffOnSuccess (p : ExponentialBackoff) (_s : BackoffState) : BackoffState :=
  backoffInit p

/-- The pre-jitter delay before the Nth consecutive reconnect attempt
(N ≥ 1): the state after N-1 recorded failures. -/
def nthDelay (p : ExponentialBackoff) (n : ℕ) : ℚ :=
  ((backoffOnFailure p)^[n - 1] (backoffInit p)).currentDelay

/-! ## Theorems -/

/-- C3: applying a `Snapshot` yields the book and the ticker of the
snapshot's payload, whatever the prior model was — the prior order-book
state is discarded wholesale and the resulting book and ticker do not
depend on the prior state. -/
theorem snapshot_replaces_book_and_ticker (C : ℕ) (m : MarketModel)
    (bk : OrderBookSnapshot) (tk : Ticker) :
    (applyMessage C m (WsMessage.snapshot bk tk)).book = some bk ∧
    (applyMessage C m (WsMessage.snapshot bk tk)).ticker = some tk :=
  ⟨rfl, rfl⟩

/-- C8: the server mounts the WebSocket handler at `/ws`; the client's
`get_ws_url` targets `/ws` on the page host with scheme `wss` exactly when
the page protocol is `https:`, and falls back to the default development
url when no window location (or no readable host) is available. -/
theorem ws_route_and_url :
    ("/ws", RouteHandler.wsHandler) ∈ routes ∧
    (∀ loc : WindowLocation, ∀ h : String, loc.host = some h →
      get_ws_url (some loc) =
        (if loc.protocol = some "https:" then "wss" else "ws") ++
          "://" ++ h ++ "/ws") ∧
    (∀ loc : WindowLocation, loc.host = none →
      get_ws_url (some loc) = DEFAULT_WS_URL) ∧
    get_ws_url none = DEFAULT_WS_URL := by
  refine ⟨by simp [routes], ?_, ?_, rfl⟩
  · intro loc h hh
    simp [get_ws_url, hh]
  · intro loc hh
    simp [get_ws_url, hh]

/-- Witness for C8: a concrete https window location yields the secure
url on the page host at path `/ws`. -/
theorem ws_route_and_url_witness :
    get_ws_url (some ⟨some "exchange.example", some "https:"⟩) =
      "wss://exchange.example/ws" := by
  have h := ws_route_and_url.2.1 ⟨some "exchange.example", some "https:"⟩
    "exchange.example" rfl
  rw [h]
  rfl

/-- C4 counterexample: two configurations built in `App` style that differ
in backoff policy and heartbeat but share the url lead to identical data
passed to `use_websocket` — only `ws_config.url` crosses the call
(`dash-app/src/main.rs:22`), so the configured policy and heartbeat cannot
govern the connection. -/
theorem config_not_forwarded_cex :
    (appWsConfig "ws://a/ws" ⟨100, 2, 10000, true⟩).policy ≠
      (((WsConfig.new "ws://a/ws").with_policy ⟨999, 9, 99999, false⟩).heartbeat 7).policy ∧
    (appWsConfig "ws://a/ws" ⟨100, 2, 10000, true⟩).heartbeatMs ≠
      (((WsConfig.new "ws://a/ws").with_policy ⟨999, 9, 99999, false⟩).heartbeat 7).heartbeatMs ∧
    appUseWebsocketArg (appWsConfig "ws://a/ws" ⟨100, 2, 10000, true⟩) =
      appUseWebsocketArg
        (((WsConfig.new "ws://a/ws").with_policy ⟨999, 9, 99999, false⟩).heartbeat 7) := by
  refine ⟨?_, ?_, rfl⟩
  · intro h
    have hb := congrArg ExponentialBackoff.base h
    simp [appWsConfig, WsConfig.new, WsConfig.with_policy, WsConfig.heartbeat] at hb
  · intro h
    simp [appWsConfig, WsConfig.new, WsConfig.with_policy, WsConfig.heartbeat] at h

/-- C4 amended: only the base url of the configuration governs the
connection started in `App`: `use_websocket` receives `Some(cfg.url)` and
nothing else, so two configurations with equal urls start identically
parameterized connections regardless of policy or heartbeat. -/
theorem only_url_governs_connection (cfg₁ cfg₂ : WsConfig)
    (h : cfg₁.url = cfg₂.url) :
    appUseWebsocketArg cfg₁ = appUseWebsocketArg cfg₂ ∧
    appUseWebsocketArg cfg₁ = some cfg₁.url := by
  simp [appUseWebsocketArg, h]

/-- Witness for the amended C4 at two concrete configurations differing in
policy and heartbeat. -/
theorem only_url_governs_connection_witness :
    appUseWebsocketArg (appWsConfig "ws://a/ws" ⟨100, 2, 10000, true⟩) =
      appUseWebsocketArg ((WsConfig.new "ws://a/ws").heartbeat 5) ∧
    appUseWebsocketArg (appWsConfig "ws://a/ws" ⟨100, 2, 10000, true⟩) =
      some (appWsConfig "ws://a/ws" ⟨100, 2, 10000, true⟩).url :=
  only_url_governs_connection _ _ rfl

/-- C7: every text frame leaves the receive loop running, whatever the
parse outcome — each advisory variant is handled with a log, an
unparseable message is ignored with a trace diagnostic — and a frame
stream without a `Close` is processed to its end: an unsupported or
unparseable client message never closes the connection. -/
theorem text_frames_never_close (parse : String → ParseOutcome) (t : String) :
    (recvTaskStep parse (Frame.text t)).1 = LoopCtl.cont ∧
    ((∃ s, parse t = ParseOutcome.ok (ClientMessage.subscribe s) ∧
        handle_client_message parse t =
          LogAction.info ("Client subscribed to " ++ s)) ∨
     (∃ s, parse t = ParseOutcome.ok (ClientMessage.unsubscribe s) ∧
        handle_client_message parse t =
          LogAction.info ("Client unsubscribed from " ++ s)) ∨
     (parse t = ParseOutcome.ok ClientMessage.ping ∧
        handle_client_message parse t = LogAction.trace "Client ping") ∨
     (parse t = ParseOutcome.err ∧
        handle_client_message parse t =
          LogAction.trace ("Unknown client message: " ++ t))) ∧
    (∀ fs : List Frame, Frame.close ∉ fs →
      recvLoopProcessed parse fs = fs.length) := by
  refine ⟨rfl, ?_, ?_⟩
  · unfold handle_client_message
    rcases hp : parse t with m | _
    · rcases m with s | s | _
      · exact Or.inl ⟨s, rfl, rfl⟩
      · exact Or.inr (Or.inl ⟨s, rfl, rfl⟩)
      · exact Or.inr (Or.inr (Or.inl ⟨rfl, rfl⟩))
    · exact Or.inr (Or.inr (Or.inr ⟨rfl, rfl⟩))
  · intro fs
    induction fs with
    | nil => intro _; rfl
    | cons f fs ih =>
      intro hni
      have hf : f ≠ Frame.close := fun h => hni (by simp [h])
      have hfs : Frame.close ∉ fs := fun h => hni (List.mem_cons_of_mem _ h)
      have hcont : (recvTaskStep parse f).1 = LoopCtl.cont := by
        cases f with
        | text s => rfl
        | ping p => rfl
        | close => exact absurd rfl hf
        | binary p => rfl
      simp [recvLoopProcessed, hcont, ih hfs, Nat.add_comm]

/-- Witness for C7: with a parser that rejects everything, a text frame
continues the loop and a close-free stream is fully processed. -/
theorem text_frames_never_close_witness :
    (recvTaskStep (fun _ => ParseOutcome.err) (Frame.text "hello")).1 =
      LoopCtl.cont ∧
    recvLoopProcessed (fun _ => ParseOutcome.err)
      [Frame.text "hello", Frame.ping [1], Frame.binary [2]] = 3 := by
  have h := text_frames_never_close (fun _ => ParseOutcome.err) "hello"
  exact ⟨h.1, h.2.2 [Frame.text "hello", Frame.ping [1], Frame.binary [2]]
    (by decide)⟩

/-- C10: the depth-bar divisor is clamped to at least `0.001` (and is `1`
with no book present), and for any non-negative level quantity the
computed bar percentage lies in `[0, 100]`. -/
theorem bar_pct_bounded (orderbook : Option OrderBookSnapshot) (q : ℚ)
    (hq : 0 ≤ q) :
    1/1000 ≤ max_qty orderbook ∧
    0 ≤ bar_pct q (max_qty orderbook) ∧
    bar_pct q (max_qty orderbook) ≤ 100 := by
  have hm : 1/1000 ≤ max_qty orderbook := by
    cases orderbook with
    | none => norm_num [max_qty]
    | some book => exact le_max_right _ _
  have hmpos : 0 < max_qty orderbook := lt_of_lt_of_le (by norm_num) hm
  refine ⟨hm, ?_, min_le_right _ _⟩
  exact le_min (mul_nonneg (div_nonneg hq hmpos.le) (by norm_num)) (by norm_num)

/-- Witness for C10 at a concrete book and level. -/
theorem bar_pct_bounded_witness :
    1/1000 ≤ max_qty (some ⟨[⟨100, 2⟩], [⟨101, 3⟩]⟩) ∧
    0 ≤ bar_pct 2 (max_qty (some ⟨[⟨100, 2⟩], [⟨101, 3⟩]⟩)) ∧
    bar_pct 2 (max_qty (some ⟨[⟨100, 2⟩], [⟨101, 3⟩]⟩)) ≤ 100 :=
  bar_pct_bounded (some ⟨[⟨100, 2⟩], [⟨101, 3⟩]⟩) 2 (by norm_num)

/-- `sideVolume` on a cons adds the quantity exactly when the sides
match. -/
theorem sideVolume_cons (s : TradeSide) (t : Trade) (ts : List Trade) :
    sideVolume s (t :: ts) =
      (if t.side = s then t.quantity else 0) + sideVolume s ts := by
  by_cases h : t.side = s <;> simp [sideVolume, h]

/-- The accumulator fold of `flow_data` computes the per-side volume
sums. -/
theorem flow_fold_eq (ts : List Trade) (acc : ℚ × ℚ) :
    ts.foldl
      (fun (acc : ℚ × ℚ) t =>
        match t.side with
        | TradeSide.buy => (acc.1 + t.quantity, acc.2)
        | TradeSide.sell => (acc.1, acc.2 + t.quantity)) acc =
      (acc.1 + sideVolume TradeSide.buy ts,
       acc.2 + sideVolume TradeSide.sell ts) := by
  induction ts generalizing acc with
  | nil => simp [sideVolume]
  | cons t ts ih =>
    cases h : t.side with
    | buy =>
      simp only [List.foldl_cons, h, ih, sideVolume_cons, h]
      simp [add_assoc]
    | sell =>
      simp only [List.foldl_cons, h, ih, sideVolume_cons, h]
      simp [add_assoc]

/-- Per-side volumes are non-negative when all quantities are. -/
theorem sideVolume_nonneg (s : TradeSide) (ts : List Trade)
    (h : ∀ t ∈ ts, 0 ≤ t.quantity) : 0 ≤ sideVolume s ts := by
  induction ts with
  | nil => simp [sideVolume]
  | cons t ts ih =>
    rw [sideVolume_cons]
    have ht := h t (List.mem_cons_self t ts)
    have hts := ih fun x hx => h x (List.mem_cons_of_mem _ hx)
    by_cases hs : t.side = s
    · simp only [if_pos hs]
      exact add_nonneg ht hts
    · simp only [if_neg hs, zero_add]
      exact hts

/-- Closed form of `flow_data`: the buy and sell volumes are the per-side
quantity sums over the window, and the ratio is the guarded quotient. -/
theorem flow_data_eq (trades : List Trade) (window : ℕ) :
    flow_data trades window =
      if (trades.take window).isEmpty then ((0 : ℚ), (0 : ℚ), (1/2 : ℚ))
      else
        (sideVolume TradeSide.buy (trades.take window),
         sideVolume TradeSide.sell (trades.take window),
         if 0 < sideVolume TradeSide.buy (trades.take window) +
              sideVolume TradeSide.sell (trades.take window) then
           sideVolume TradeSide.buy (trades.take window) /
             (sideVolume TradeSide.buy (trades.take window) +
               sideVolume TradeSide.sell (trades.take window))
         else 1/2) := by
  by_cases he : (trades.take window).isEmpty
  · simp [flow_data, he]
  · simp [flow_data, he, flow_fold_eq]

/-- C6: `flow_data` is a pure function of the current trades and window:
its buy volume is the sum of quantities of the Buy-side trades among the
`window` newest trades, its sell volume the Sell-side sum over the same
window, and — whenever the windowed total volume is positive — its buy
ratio is `buy_vol / (buy_vol + sell_vol)`. -/
theorem flow_data_spec (trades : List Trade) (window : ℕ) :
    (flow_data trades window).1 =
      sideVolume TradeSide.buy (trades.take window) ∧
    (flow_data trades window).2.1 =
      sideVolume TradeSide.sell (trades.take window) ∧
    (0 < sideVolume TradeSide.buy (trades.take window) +
        sideVolume TradeSide.sell (trades.take window) →
      (flow_data trades window).2.2 =
        sideVolume TradeSide.buy (trades.take window) /
          (sideVolume TradeSide.buy (trades.take window) +
            sideVolume TradeSide.sell (trades.take window))) := by
  rw [flow_data_eq]
  by_cases he : (trades.take window).isEmpty
  · rw [List.isEmpty_iff] at he
    refine ⟨?_, ?_, ?_⟩ <;> simp [he, sideVolume]
  · have hne : ((trades.take window).isEmpty) = false :=
      Bool.eq_false_iff.mpr he
    rw [hne]
    refine ⟨rfl, rfl, fun hpos => ?_⟩
    simp only [Bool.false_eq_true, if_false, if_pos hpos]

/-- Witness for C6 at a concrete trade list and window. -/
theorem flow_data_spec_witness :
    (flow_data [⟨"a", TradeSide.buy, 100, 2, 0⟩,
                ⟨"b", TradeSide.sell, 100, 1, 1⟩] 2).2.2 = 2/3 := by
  have h := (flow_data_spec [⟨"a", TradeSide.buy, 100, 2, 0⟩,
    ⟨"b", TradeSide.sell, 100, 1, 1⟩] 2).2.2
    (by simp [sideVolume, List.filter_cons, List.filter_nil]; norm_num)
  rw [h]
  simp [sideVolume, List.filter_cons, List.filter_nil]
  norm_num

/-- C9: with non-negative trade quantities the buy ratio of `flow_data`
always lies in `[0, 1]`, and it is exactly `1/2` whenever the windowed
total volume is not positive (in particular for an empty window) — the
division is guarded, never a division by zero. -/
theorem buy_fraction_bounded (trades : List Trade) (window : ℕ)
    (hq : ∀ t ∈ trades, 0 ≤ t.quantity) :
    0 ≤ (flow_data trades window).2.2 ∧
    (flow_data trades window).2.2 ≤ 1 ∧
    (¬ 0 < (flow_data trades window).1 + (flow_data trades window).2.1 →
      (flow_data trades window).2.2 = 1/2) := by
  have hqt : ∀ t ∈ trades.take window, 0 ≤ t.quantity := fun t ht =>
    hq t (List.take_subset _ _ ht)
  have hb := sideVolume_nonneg TradeSide.buy _ hqt
  have hs := sideVolume_nonneg TradeSide.sell _ hqt
  rw [flow_data_eq]
  by_cases he : (trades.take window).isEmpty
  · rw [if_pos he]
    refine ⟨by norm_num, by norm_num, fun _ => rfl⟩
  · rw [if_neg he]
    by_cases hpos :
        0 < sideVolume TradeSide.buy (trades.take window) +
          sideVolume TradeSide.sell (trades.take window)
    · simp only [if_pos hpos]
      refine ⟨div_nonneg hb hpos.le, ?_, fun hc => absurd hpos hc⟩
      rw [div_le_one hpos]
      exact le_add_of_nonneg_right hs
    · simp only [if_neg hpos]
      exact ⟨by norm_num, by norm_num, fun _ => trivial⟩

/-- Witness for C9 at a concrete trade list. -/
theorem buy_fraction_bounded_witness :
    0 ≤ (flow_data [⟨"a", TradeSide.buy, 100, 3, 0⟩] 1).2.2 ∧
    (flow_data [⟨"a", TradeSide.buy, 100, 3, 0⟩] 1).2.2 ≤ 1 := by
  have h := buy_fraction_bounded [⟨"a", TradeSide.buy, 100, 3, 0⟩] 1
    (by intro t ht; simp at ht; rw [ht]; norm_num)
  exact ⟨h.1, h.2.1⟩

/-- After `k` consecutive failures the backoff delay is the base times the
factor to the `k`, capped at the maximum (for a sane configuration:
non-negative base below the cap, growth factor at least one). -/
theorem backoff_iterate (p : ExponentialBackoff) (hb : 0 ≤ p.base)
    (hbm : p.base ≤ p.maxDelay) (hf : 1 ≤ p.factor) (k : ℕ) :
    ((backoffOnFailure p)^[k] (backoffInit p)).currentDelay =
      min (p.base * p.factor ^ k) p.maxDelay := by
  have hm : 0 ≤ p.maxDelay := hb.trans hbm
  induction k with
  | zero =>
    simp [backoffInit, min_eq_left hbm]
  | succ k ih =>
    rw [Function.iterate_succ_apply', backoffOnFailure, ih]
    rcases le_or_lt (p.base * p.factor ^ k) p.maxDelay with hle | hgt
    · rw [min_eq_left hle, pow_succ, ← mul_assoc]
    · have h0 : 0 ≤ p.base * p.factor ^ k :=
        mul_nonneg hb (pow_nonneg (zero_le_one.trans hf) k)
      rw [min_eq_right hgt.le,
        min_eq_right (le_mul_of_one_le_right hm hf)]
      rw [min_eq_right]
      calc p.maxDelay ≤ p.base * p.factor ^ k := hgt.le
        _ ≤ p.base * p.factor ^ k * p.factor :=
            le_mul_of_one_le_right h0 hf
        _ = p.base * p.factor ^ (k + 1) := by rw [pow_succ, mul_assoc]

/-- C5: for a configuration with base `b ≥ 0`, factor `f ≥ 1` and cap
`m ≥ b`, the pre-jitter delay before the Nth consecutive reconnect attempt
is `min(b * f^(N-1), m)`, and a successful connection resets the engine so
the next delay is `b` again. -/
theorem nth_delay_formula (p : ExponentialBackoff) (n : ℕ) (hn : 1 ≤ n)
    (hb : 0 ≤ p.base) (hbm : p.base ≤ p.maxDelay) (hf : 1 ≤ p.factor) :
    nthDelay p n = min (p.base * p.factor ^ (n - 1)) p.maxDelay ∧
    ∀ s : BackoffState, (backoffOnSuccess p s).currentDelay = p.base := by
  refine ⟨backoff_iterate p hb hbm hf (n - 1), fun s => rfl⟩

/-- Witness for C5: the aggressive-style policy (base 500 ms, factor 2,
cap 30000 ms) hits the cap at the 7th consecutive attempt, and any state
resets to the 500 ms base on success. -/
theorem nth_delay_formula_witness :
    nthDelay ⟨500, 2, 30000, true⟩ 7 = 30000 ∧
    (backoffOnSuccess ⟨500, 2, 30000, true⟩ ⟨12345⟩).currentDelay = 500 := by
  have h := nth_delay_formula ⟨500, 2, 30000, true⟩ 7 (by norm_num)
    (by norm_num) (by norm_num) (by norm_num)
  exact ⟨h.1.trans (by norm_num), h.2 ⟨12345⟩⟩

/-- Running a trace splits over list append. -/
theorem runEvents_append {α : Type} (cap : ℕ) (s : SendTaskState α)
    (l₁ l₂ : List (BEvent α)) :
    runEvents cap s (l₁ ++ l₂) = runEvents cap (runEvents cap s l₁) l₂ :=
  List.foldl_append ..

/-- Publish events only append to the channel's published list. -/
theorem runEvents_publishes {α : Type} (cap : ℕ) (s : SendTaskState α)
    (ms : List α) :
    runEvents cap s (ms.map BEvent.publish) =
      { s with published := s.published ++ ms } := by
  induction ms generalizing s with
  | nil => simp [runEvents]
  | cons m ms ih =>
    rw [List.map_cons]
    show runEvents cap (sendTaskStep cap s (BEvent.publish m))
      (ms.map BEvent.publish) = _
    rw [sendTaskStep, ih]
    simp

/-- Running a trace unfolds one event at a time. -/
theorem runEvents_cons {α : Type} (cap : ℕ) (s : SendTaskState α)
    (e : BEvent α) (evs : List (BEvent α)) :
    runEvents cap s (e :: evs) = runEvents cap (sendTaskStep cap s e) evs :=
  rfl

/-- A dead forwarding loop stays dead and delivers nothing further. -/
theorem runEvents_dead {α : Type} (cap : ℕ) (s : SendTaskState α)
    (evs : List (BEvent α)) (h : s.alive = false) :
    (runEvents cap s evs).alive = false ∧
    (runEvents cap s evs).delivered = s.delivered := by
  induction evs generalizing s with
  | nil => exact ⟨h, rfl⟩
  | cons e evs ih =>
    rw [runEvents_cons]
    cases e with
    | publish m =>
      exact ih { s with published := s.published ++ [m] } h
    | recvEvent =>
      have hstep : sendTaskStep cap s BEvent.recvEvent = s := by
        rw [sendTaskStep, if_pos h]
      rw [hstep]
      exact ih s h

/-- On a lag event — loop alive, backlog beyond the channel capacity —
`rx.recv()` repositions the receiver at the oldest retained message and
the `while let Ok` loop of `handle_socket` exits. -/
theorem sendTaskStep_lag {α : Type} (cap : ℕ) (s : SendTaskState α)
    (halive : s.alive = true)
    (hlag : cap < s.published.length - s.rpos) :
    sendTaskStep cap s BEvent.recvEvent =
      { s with rpos := s.published.length - cap, alive := false } := by
  have hnot : ¬ (s.alive = false) := by simp [halive]
  have hlt : s.rpos < s.published.length := by omega
  rw [sendTaskStep, if_neg hnot, dif_pos hlt, if_pos hlag]

/-- C1 amended: when the loop is alive and the subscriber's backlog
exceeds the channel capacity, one `rx.recv()` drops this subscriber to
the oldest retained message — only the oldest buffered messages for this
subscriber are skipped — but the `while let Ok` forwarding loop of
`handle_socket` terminates: nothing more is delivered and the subscriber
is disconnected. -/
theorem lag_terminates_forwarding {α : Type} (cap : ℕ)
    (s : SendTaskState α) (halive : s.alive = true)
    (hlag : cap < s.published.length - s.rpos) :
    (sendTaskStep cap s BEvent.recvEvent).alive = false ∧
    (sendTaskStep cap s BEvent.recvEvent).rpos =
      s.published.length - cap ∧
    (sendTaskStep cap s BEvent.recvEvent).delivered = s.delivered ∧
    ∀ evs : List (BEvent α),
      (runEvents cap (sendTaskStep cap s BEvent.recvEvent) evs).delivered =
        s.delivered := by
  rw [sendTaskStep_lag cap s halive hlag]
  exact ⟨rfl, rfl, rfl, fun evs => (runEvents_dead cap _ evs rfl).2⟩

/-- Witness for the amended C1: a subscriber of a capacity-2 channel with
four pending messages is cut off at the lag and delivers nothing more. -/
theorem lag_terminates_forwarding_witness :
    (sendTaskStep 2 ⟨[10, 20, 30, 40], 0, true, []⟩ BEvent.recvEvent).alive
      = false ∧
    (sendTaskStep 2 ⟨[10, 20, 30, 40], 0, true, []⟩ BEvent.recvEvent).rpos
      = 2 ∧
    (sendTaskStep 2 ⟨[10, 20, 30, 40], 0, true, []⟩
      BEvent.recvEvent).delivered = ([] : List ℕ) ∧
    ∀ evs : List (BEvent ℕ),
      (runEvents 2 (sendTaskStep 2 ⟨[10, 20, 30, 40], 0, true, []⟩
        BEvent.recvEvent) evs).delivered = [] := by
  have h := lag_terminates_forwarding 2
    (⟨[10, 20, 30, 40], 0, true, []⟩ : SendTaskState ℕ) rfl (by decide)
  exact h

set_option maxRecDepth 4000 in
/-- C1 counterexample: against the server's capacity-1024 channel, a
subscriber that falls 1026 messages behind hits one lag event; the
forwarding loop of `handle_socket` terminates there and delivers no
subsequent message (here the later-published message 42), instead of
continuing — the subscriber is disconnected by the lag alone. -/
theorem lagged_subscriber_disconnected_cex :
    (runEvents appChannelCapacity (initSendTask (α := ℕ))
      ((List.replicate 1026 (0 : ℕ)).map BEvent.publish ++
        [BEvent.recvEvent, BEvent.publish 42, BEvent.recvEvent])).alive
      = false ∧
    (runEvents appChannelCapacity (initSendTask (α := ℕ))
      ((List.replicate 1026 (0 : ℕ)).map BEvent.publish ++
        [BEvent.recvEvent, BEvent.publish 42, BEvent.recvEvent])).delivered
      = [] := by
  rw [runEvents_append, runEvents_publishes, runEvents_cons]
  have hlag : appChannelCapacity <
      ({ initSendTask (α := ℕ) with
          published := (initSendTask (α := ℕ)).published ++
            List.replicate 1026 (0 : ℕ) } :
        SendTaskState ℕ).published.length -
        ({ initSendTask (α := ℕ) with
            published := (initSendTask (α := ℕ)).published ++
              List.replicate 1026 (0 : ℕ) } :
          SendTaskState ℕ).rpos := by
    simp only [initSendTask, List.nil_append, List.length_replicate]
    norm_num [appChannelCapacity]
  rw [sendTaskStep_lag appChannelCapacity _ rfl hlag]
  exact runEvents_dead appChannelCapacity _ _ rfl

/-- Elements of an ordered upsert into a descending side come from the
inserted level or the old side. -/
theorem mem_insertDesc (lv x : OrderBookLevel) :
    ∀ ls : List OrderBookLevel, x ∈ insertDesc lv ls → x = lv ∨ x ∈ ls := by
  intro ls
  induction ls with
  | nil =>
    intro hx
    rw [insertDesc] at hx
    exact Or.inl (List.mem_singleton.mp hx)
  | cons l ls ih =>
    intro hx
    rw [insertDesc] at hx
    by_cases h1 : l.price < lv.price
    · rw [if_pos h1] at hx
      rcases List.mem_cons.mp hx with h | h
      · exact Or.inl h
      · exact Or.inr h
    · rw [if_neg h1] at hx
      by_cases h2 : lv.price = l.price
      · rw [if_pos h2] at hx
        rcases List.mem_cons.mp hx with h | h
        · exact Or.inl h
        · exact Or.inr (List.mem_cons_of_mem _ h)
      · rw [if_neg h2] at hx
        rcases List.mem_cons.mp hx with h | h
        · exact Or.inr (h ▸ List.mem_cons_self l ls)
        · rcases ih h with h' | h'
          · exact Or.inl h'
          · exact Or.inr (List.mem_cons_of_mem _ h')

/-- Elements of an ordered upsert into an ascending side come from the
inserted level or the old side. -/
theorem mem_insertAsc (lv x : OrderBookLevel) :
    ∀ ls : List OrderBookLevel, x ∈ insertAsc lv ls → x = lv ∨ x ∈ ls := by
  intro ls
  induction ls with
  | nil =>
    intro hx
    rw [insertAsc] at hx
    exact Or.inl (List.mem_singleton.mp hx)
  | cons l ls ih =>
    intro hx
    rw [insertAsc] at hx
    by_cases h1 : lv.price < l.price
    · rw [if_pos h1] at hx
      rcases List.mem_cons.mp hx with h | h
      · exact Or.inl h
      · exact Or.inr h
    · rw [if_neg h1] at hx
      by_cases h2 : lv.price = l.price
      · rw [if_pos h2] at hx
        rcases List.mem_cons.mp hx with h | h
        · exact Or.inl h
        · exact Or.inr (List.mem_cons_of_mem _ h)
      · rw [if_neg h2] at hx
        rcases List.mem_cons.mp hx with h | h
        · exact Or.inr (h ▸ List.mem_cons_self l ls)
        · rcases ih h with h' | h'
          · exact Or.inl h'
          · exact Or.inr (List.mem_cons_of_mem _ h')

/-- Ordered upsert preserves strict descending order of a side. -/
theorem strictDesc_insertDesc (lv : OrderBookLevel) :
    ∀ ls : List OrderBookLevel, StrictDesc ls → StrictDesc (insertDesc lv ls) := by
  intro ls
  induction ls with
  | nil =>
    intro _
    rw [insertDesc]
    exact List.pairwise_singleton _ _
  | cons l ls ih =>
    intro hs
    rw [StrictDesc, List.pairwise_cons] at hs
    obtain ⟨hl, hls⟩ := hs
    rw [insertDesc]
    by_cases h1 : l.price < lv.price
    · rw [if_pos h1]
      rw [StrictDesc, List.pairwise_cons]
      refine ⟨?_, List.Pairwise.cons hl hls⟩
      intro y hy
      rcases List.mem_cons.mp hy with h | h
      · exact h ▸ h1
      · exact (hl y h).trans h1
    · rw [if_neg h1]
      by_cases h2 : lv.price = l.price
      · rw [if_pos h2]
        rw [StrictDesc, List.pairwise_cons]
        exact ⟨fun y hy => h2 ▸ hl y hy, hls⟩
      · rw [if_neg h2]
        rw [StrictDesc, List.pairwise_cons]
        refine ⟨?_, ih hls⟩
        intro y hy
        rcases mem_insertDesc lv y ls hy with h | h
        · have : lv.price < l.price :=
            lt_of_le_of_ne (not_lt.mp h1) h2
          exact h ▸ this
        · exact hl y h

/-- Ordered upsert preserves strict ascending order of a side. -/
theorem strictAsc_insertAsc (lv : OrderBookLevel) :
    ∀ ls : List OrderBookLevel, StrictAsc ls → StrictAsc (insertAsc lv ls) := by
  intro ls
  induction ls with
  | nil =>
    intro _
    rw [insertAsc]
    exact List.pairwise_singleton _ _
  | cons l ls ih =>
    intro hs
    rw [StrictAsc, List.pairwise_cons] at hs
    obtain ⟨hl, hls⟩ := hs
    rw [insertAsc]
    by_cases h1 : lv.price < l.price
    · rw [if_pos h1]
      rw [StrictAsc, List.pairwise_cons]
      refine ⟨?_, List.Pairwise.cons hl hls⟩
      intro y hy
      rcases List.mem_cons.mp hy with h | h
      · exact h ▸ h1
      · exact h1.trans (hl y h)
    · rw [if_neg h1]
      by_cases h2 : lv.price = l.price
      · rw [if_pos h2]
        rw [StrictAsc, List.pairwise_cons]
        exact ⟨fun y hy => h2 ▸ hl y hy, hls⟩
      · rw [if_neg h2]
        rw [StrictAsc, List.pairwise_cons]
        refine ⟨?_, ih hls⟩
        intro y hy
        rcases mem_insertAsc lv y ls hy with h | h
        · have : l.price < lv.price :=
            lt_of_le_of_ne (not_lt.mp h1) (fun he => h2 he.symm)
          exact h ▸ this
        · exact hl y h

/-- Removal preserves strict descending order. -/
theorem strictDesc_removeLevel (p : ℚ) (ls : List OrderBookLevel)
    (h : StrictDesc ls) : StrictDesc (removeLevel p ls) :=
  h.sublist (List.filter_sublist _)

/-- Removal preserves strict ascending order. -/
theorem strictAsc_removeLevel (p : ℚ) (ls : List OrderBookLevel)
    (h : StrictAsc ls) : StrictAsc (removeLevel p ls) :=
  h.sublist (List.filter_sublist _)

/-- A delta application preserves sorted unique sides. -/
theorem sidesSorted_applyDelta (side : Side) (p q : ℚ)
    (b : OrderBookSnapshot) (hb : SidesSorted b) :
    SidesSorted (applyDelta side p q b) := by
  obtain ⟨hbids, hasks⟩ := hb
  cases side with
  | bid =>
    rw [applyDelta]
    by_cases hq : q = 0
    · rw [if_pos hq]
      exact ⟨strictDesc_removeLevel p _ hbids, hasks⟩
    · rw [if_neg hq]
      exact ⟨strictDesc_insertDesc _ _ hbids, hasks⟩
  | ask =>
    rw [applyDelta]
    by_cases hq : q = 0
    · rw [if_pos hq]
      exact ⟨hbids, strictAsc_removeLevel p _ hasks⟩
    · rw [if_neg hq]
      exact ⟨hbids, strictAsc_insertAsc _ _ hasks⟩

/-- Folding any message sequence whose snapshots are well-formed preserves
the sorted-sides invariant of the model's book. -/
theorem bookOk_applyAll (C : ℕ) (msgs : List WsMessage) :
    ∀ m : MarketModel, (∀ b, m.book = some b → SidesSorted b) →
      SnapshotsSorted msgs →
      ∀ b, (applyAll C m msgs).book = some b → SidesSorted b := by
  induction msgs with
  | nil => exact fun m hm _ => hm
  | cons msg msgs ih =>
    intro m hm hsnap
    have hsnap' : SnapshotsSorted msgs := fun bk tk hmem =>
      hsnap bk tk (List.mem_cons_of_mem _ hmem)
    have hstep : ∀ b, (applyMessage C m msg).book = some b → SidesSorted b := by
      cases msg with
      | snapshot bk tk =>
        intro b hb
        rw [applyMessage] at hb
        have : some bk = some b := hb
        exact Option.some_injective _ this ▸
          hsnap bk tk (List.mem_cons_self _ _)
      | delta side p q =>
        intro b hb
        rw [applyMessage] at hb
        cases hbook : m.book with
        | none =>
          rw [hbook] at hb
          exact hm b (hb : m.book = some b)
        | some b0 =>
          rw [hbook] at hb
          have : some (applyDelta side p q b0) = some b := hb
          exact Option.some_injective _ this ▸
            sidesSorted_applyDelta side p q b0 (hm b0 hbook)
      | trade t => exact fun b hb => hm b hb
      | ticker t => exact fun b hb => hm b hb
      | heartbeat ts => exact fun b hb => hm b hb
    exact ih (applyMessage C m msg) hstep hsnap'

/-- C2 amended: after any sequence of Snapshot/Delta (and other)
applications from the initial state, with every snapshot payload carrying
strictly sorted unique sides (the `OrderBookSnapshot` data-model
invariant), every reachable book keeps its bids strictly descending and
its asks strictly ascending with no duplicate price on either side.  The
best-bid < best-ask clause of the original claim is not preserved by
deltas and is refuted separately. -/
theorem reachable_sides_sorted (C : ℕ) (msgs : List WsMessage)
    (hs : SnapshotsSorted msgs) :
    ∀ b, (applyAll C initialModel msgs).book = some b →
      StrictDesc b.bids ∧ StrictAsc b.asks ∧
      (b.bids.map OrderBookLevel.price).Nodup ∧
      (b.asks.map OrderBookLevel.price).Nodup := by
  intro b hb
  have hinit : ∀ b0 : OrderBookSnapshot,
      initialModel.book = some b0 → SidesSorted b0 := by
    intro b0 h0
    exact Option.noConfusion h0
  obtain ⟨hd, ha⟩ := bookOk_applyAll C msgs initialModel hinit hs b hb
  refine ⟨hd, ha, ?_, ?_⟩
  · exact (List.pairwise_map.mpr (hd.imp fun h => h.ne'))
  · exact (List.pairwise_map.mpr (ha.imp fun h => h.ne))

/-- Witness for the amended C2: a snapshot followed by a bid delta keeps
both sides strictly sorted with unique prices. -/
theorem reachable_sides_sorted_witness :
    StrictDesc
      ([⟨102, 1⟩, ⟨100, 2⟩] :
        List OrderBookLevel) ∧
    StrictAsc ([⟨101, 3⟩] : List OrderBookLevel) := by
  have h := reachable_sides_sorted 50
    [WsMessage.snapshot ⟨[⟨100, 2⟩], [⟨101, 3⟩]⟩ ⟨100, 101, 99, 5, 0⟩,
     WsMessage.delta Side.bid 102 1]
    (by
      intro bk tk hmem
      rcases List.mem_cons.mp hmem with h | h
      · injection h with h1 h2
        subst h1
        refine ⟨List.pairwise_singleton _ _, List.pairwise_singleton _ _⟩
      · exact WsMessage.noConfusion (List.mem_singleton.mp h))
    ⟨[⟨102, 1⟩, ⟨100, 2⟩], [⟨101, 3⟩]⟩
    (by decide)
  exact ⟨h.1, h.2.1⟩

/-- C2 counterexample: starting from the initial state, a well-formed
snapshot (sorted unique sides, best bid 100 < best ask 101) followed by a
single bid delta at price 102 reaches a book whose sides are still sorted
but whose best bid 102 is not below the best ask 101 — the reducer never
cross-checks sides, so the claimed best-bid < best-ask invariant fails on
a reachable state. -/
theorem reachable_book_crossed_cex :
    SnapshotsInvariant
      [WsMessage.snapshot ⟨[⟨100, 2⟩], [⟨101, 3⟩]⟩ ⟨100, 101, 99, 5, 0⟩,
       WsMessage.delta Side.bid 102 1] ∧
    (applyAll 50 initialModel
      [WsMessage.snapshot ⟨[⟨100, 2⟩], [⟨101, 3⟩]⟩ ⟨100, 101, 99, 5, 0⟩,
       WsMessage.delta Side.bid 102 1]).book =
      some ⟨[⟨102, 1⟩, ⟨100, 2⟩], [⟨101, 3⟩]⟩ ∧
    ¬ BookInvariant ⟨[⟨102, 1⟩, ⟨100, 2⟩], [⟨101, 3⟩]⟩ := by
  refine ⟨?_, by decide, ?_⟩
  · intro bk tk hmem
    rcases List.mem_cons.mp hmem with h | h
    · injection h with h1 h2
      subst h1
      refine ⟨⟨List.pairwise_singleton _ _, List.pairwise_singleton _ _⟩, ?_⟩
      exact (by norm_num : (100 : ℚ) < 101)
    · exact WsMessage.noConfusion (List.mem_singleton.mp h)
  · intro hBI
    have hcross : (102 : ℚ) < 101 := hBI.2
    norm_num at hcross
